import Mathlib

/-!
Verification of the OCR-to-Markdown backend (`backend/app.py`,
`backend/scripts/ocr_to_md.py`).

Python strings are modelled as `List Char`; the Python string methods used by
the source (`str.strip`, `str.rstrip`, `str.splitlines`, `str.split`,
`str.startswith`, `str.rsplit`, `str.lower`, `in`) are embedded below.
Whitespace and line-boundary classification is modelled over the whitespace
characters Python recognises (restricted to the code points listed in
`pyWS` / `lineBreak`).

External effects (the Tesseract engine, the OpenRouter HTTP call, the
`.env` file, the environment variable, the upload directory and file
deletion) are modelled with an explicit environment `Env`: each entry
records the observable outcome the external collaborator produces, and
the embedded functions consume those outcomes exactly the way the Python
code consumes the corresponding call results.
-/

set_option linter.unusedVariables false

abbrev Str := List Char

/-- Characters treated as whitespace by Python's `str.strip`, restricted to
the code points this model covers. -/
def pyWS (c : Char) : Bool :=
  c = ' ' || c = '\t' || c = '\n' || c = '\r' || c = '\x0b' || c = '\x0c' ||
  c = '\x1c' || c = '\x1d' || c = '\x1e' || c = '\x1f' || c = '\x85' ||
  c = '\xa0' || c = ' ' || c = ' '

/-- `str.lstrip()` (no argument): drop leading whitespace. -/
def pyLstrip (s : Str) : Str := s.dropWhile pyWS

/-- `str.rstrip()` (no argument): drop trailing whitespace. -/
def pyRstrip (s : Str) : Str := (s.reverse.dropWhile pyWS).reverse

/-- `str.strip()` (no argument). -/
def pyStrip (s : Str) : Str := pyLstrip (pyRstrip s)

/-- Truthiness of `ln.strip()`: `True` iff the line is blank (whitespace-only
or empty). -/
def isBlank (s : Str) : Bool := (pyStrip s).isEmpty

/-- Line boundary characters recognised by Python's `str.splitlines`
(restricted to the code points this model covers; `"\r\n"` is handled as a
single boundary in `splitlinesAux`). -/
def lineBreak (c : Char) : Bool :=
  c = '\n' || c = '\r' || c = '\x0b' || c = '\x0c' || c = '\x1c' ||
  c = '\x1d' || c = '\x1e' || c = '\x85' || c = ' ' || c = ' '

/-- Worker for `str.splitlines`: `acc` holds the current line reversed. -/
def splitlinesAux : Str → Str → List Str
  | [], acc => if acc.isEmpty then [] else [acc.reverse]
  | '\r' :: '\n' :: rest, acc => acc.reverse :: splitlinesAux rest []
  | c :: rest, acc =>
    if lineBreak c then acc.reverse :: splitlinesAux rest []
    else splitlinesAux rest (c :: acc)

/-- `str.splitlines()`. -/
def pySplitlines (s : Str) : List Str := splitlinesAux s []

/-- Worker for `str.split(sep)` with a single-character separator. -/
def splitChAux (sep : Char) : Str → Str → List Str
  | [], acc => [acc.reverse]
  | c :: rest, acc =>
    if c = sep then acc.reverse :: splitChAux sep rest []
    else splitChAux sep rest (c :: acc)

/-- `str.split(sep)` with a single-character separator. -/
def pySplitCh (sep : Char) (s : Str) : List Str := splitChAux sep s []

/-- Join a list of lines with `"\n"` (`"\n".join(md_lines)`). -/
def joinNL : List Str → Str
  | [] => []
  | [l] => l
  | l :: l2 :: ls => l ++ '\n' :: joinNL (l2 :: ls)

/-- The blank-line collapsing loop of `ocr_to_markdown` (`ocr_to_md.py`
lines 144-153): `empty` is the run-length counter of consecutive blank
lines; a blank line is emitted as `""` only while `empty < 2`. -/
def collapseBlanks : List Str → Nat → List Str
  | [], _ => []
  | ln :: rest, empty =>
    if (pyStrip ln).isEmpty = false then ln :: collapseBlanks rest 0
    else if empty + 1 < 2 then [] :: collapseBlanks rest (empty + 1)
    else collapseBlanks rest (empty + 1)

/-- The normalized text before the final newline is appended:
`"\n".join(md_lines).strip()` applied to the rstripped, blank-collapsed
lines (`ocr_to_md.py` lines 141-154). -/
def mdCore (text : Str) : Str :=
  pyStrip (joinNL (collapseBlanks ((pySplitlines text).map pyRstrip) 0))

/-- The Markdown Normalizer shared by both extraction paths
(`ocr_to_md.py` lines 141-155): rstrip each line, collapse blank runs,
strip the joined text, append exactly one `"\n"`. -/
def ocrNormalize (text : Str) : Str := mdCore text ++ ['\n']

/-- `noTwoAdjBlank L = true` iff `L` has no two adjacent blank lines. -/
def noTwoAdjBlank : List Str → Bool
  | [] => true
  | [_] => true
  | a :: b :: t => !(isBlank a && isBlank b) && noTwoAdjBlank (b :: t)

/-- `t` ends with `"\n"` but not with `"\n\n"`: exactly one trailing
newline. -/
def endsWithOneNewline (t : Str) : Bool :=
  (['\n'] : Str).isSuffixOf t && !((['\n', '\n'] : Str).isSuffixOf t)

/-- Python's substring operator `needle in hay`. -/
def strContains (needle : Str) : Str → Bool
  | [] => needle.isEmpty
  | c :: rest => needle.isPrefixOf (c :: rest) || strContains needle rest

/-- Outcome of one `pytesseract.image_to_string(img, lang=l)` call: either
the raw recognised text, or a `pytesseract.TesseractError` carrying the
message `str(e)`. -/
inductive TessOutcome where
  | text (raw : Str)
  | err (msg : Str)
deriving DecidableEq

/-- Observable outcome of the `requests.post` call to OpenRouter together
with response parsing (`ocr_to_md.py` lines 106-113): `content` is the
well-formed case (`result['choices'][0]['message']['content']`); the other
constructors are the exception classes the `except` clauses distinguish.
`badResponse` covers `raise_for_status`-free failures inside the `try`
block that raise a plain `Exception`: a JSON decode error, a response with
missing or empty `choices`, or an error extracting the content. -/
inductive NetOutcome where
  | content (s : Str)
  | timeout
  | requestError (msg : Str)
  | badResponse (msg : Str)
deriving DecidableEq

/-- Environment of external collaborators, as observed by one request:
the OCR engine, image decoding, the `.env` secrets file, the
`OPENROUTER_API_KEY` environment variable, the network, filesystem
deletion, `werkzeug.utils.secure_filename` and `uuid.uuid4()`. -/
structure Env where
  /-- Result of `pytesseract.image_to_string` per language argument. -/
  tesseract : Str → TessOutcome
  /-- Whether `Image.open` + preprocessing succeed on the stored image. -/
  decodeOk : Bool
  /-- Lines of the `.env` file, `none` when the file does not exist. -/
  envFileLines : Option (List Str)
  /-- `os.getenv('OPENROUTER_API_KEY')`. -/
  envVarKey : Option Str
  /-- Outcome of the OpenRouter chat-completions call. -/
  net : NetOutcome
  /-- Whether `os.remove` on the stored file succeeds. -/
  deleteOk : Bool
  /-- `werkzeug.utils.secure_filename` (external collaborator, black box). -/
  secureFilename : Str → Str
  /-- The generated `uuid.uuid4()` string for this request. -/
  uuid : Str

/-- Errors an extraction path can raise to the request handler:
a corrupt/unreadable image, or an OCR-engine error unrelated to language
availability (the spec's `ExtractionError`). -/
inductive ExtErr where
  | decodeError
  | extractionError (msg : Str)
deriving DecidableEq

/-- Which extractor actually produced the returned text (observation of the
execution trace, not a value the Python code returns). -/
inductive UsedMethod where
  | ocr
  | llm
deriving DecidableEq

/-- Result of one extraction call: the Markdown text the Python function
returns, plus trace observations of the method actually used and the
language actually passed to the engine that produced the text. -/
structure ExtractOut where
  text : Str
  usedMethod : UsedMethod
  usedLang : Str
deriving DecidableEq

/-- Python `lang or "eng"`: the empty string is falsy. -/
def langOrEng (lang : Str) : Str := if lang.isEmpty then ("eng".toList) else lang

/-- Local Text Extractor, `ocr_to_markdown` (`ocr_to_md.py` lines 125-155):
preprocess, OCR with `lang or "eng"`, on a `TesseractError` whose message
contains `"Failed loading language"` retry once with `"eng"` (errors of the
retry propagate), normalize. -/
def ocr_to_markdown (env : Env) (lang : Str) : Except ExtErr ExtractOut :=
  if env.decodeOk = false then .error .decodeError
  else
    match env.tesseract (langOrEng lang) with
    | .text raw => .ok ⟨ocrNormalize raw, .ocr, langOrEng lang⟩
    | .err msg =>
      if strContains ("Failed loading language".toList) msg then
        match env.tesseract ("eng".toList) with
        | .text raw => .ok ⟨ocrNormalize raw, .ocr, ("eng".toList)⟩
        | .err msg2 => .error (.extractionError msg2)
      else .error (.extractionError msg)

/-- The `lang_context` dictionary lookup with default `'English'`
(`ocr_to_md.py` lines 34-41). -/
def langContext (lang : Str) : Str :=
  if lang = ("hrv".toList) then ("Croatian".toList)
  else if lang = ("eng".toList) then ("English".toList)
  else if lang = ("fra".toList) then ("French".toList)
  else if lang = ("deu".toList) then ("German".toList)
  else if lang = ("spa".toList) then ("Spanish".toList)
  else if lang = ("ita".toList) then ("Italian".toList)
  else ("English".toList)

/-- The keys of the `lang_context` dictionary (`ocr_to_md.py` lines 34-41). -/
def langContextKeys : List Str :=
  [("hrv".toList), ("eng".toList), ("fra".toList), ("deu".toList),
   ("spa".toList), ("ita".toList)]

/-- A key value rejected as missing or placeholder: falsy, starting with
`'your-'`, or equal to `'your_api_key_here'` (`ocr_to_md.py` lines 56, 66). -/
def keyPlaceholder (k : Str) : Bool :=
  k.isEmpty || ("your-".toList).isPrefixOf k || k = ("your_api_key_here".toList)

/-- `line.split('=', 1)[1]`, given that `'='` occurs in `line`. -/
def afterFirstEq : Str → Str
  | [] => []
  | c :: rest => if c = '=' then rest else afterFirstEq rest

/-- `api_key.strip().strip('"\x27')` applied to the part after `'='`:
strip whitespace, then strip quote characters from both ends. -/
def stripKeyQuotes (s : Str) : Str :=
  ((((pyStrip s).reverse.dropWhile (fun c => c = '"' || c = '\'')).reverse).dropWhile
    (fun c => c = '"' || c = '\''))

/-- The `.env`-file scanning loop (`ocr_to_md.py` lines 50-59): the first
line that starts (after stripping) with `OPENROUTER_API_KEY=` and carries a
non-placeholder value wins; placeholder values reset `api_key` to `None`
and the scan continues. -/
def envFileKey : List Str → Option Str
  | [] => none
  | line :: rest =>
    let l := pyStrip line
    if ("OPENROUTER_API_KEY=".toList).isPrefixOf l then
      let k := stripKeyQuotes (afterFirstEq l)
      if keyPlaceholder k then envFileKey rest else some k
    else envFileKey rest

/-- API-credential resolution (`ocr_to_md.py` lines 43-67): the `.env`
file is consulted first (when it exists), then the environment variable;
placeholder values are rejected in both places. -/
def resolveApiKey (fileLines : Option (List Str)) (envVar : Option Str) : Option Str :=
  let fileKey :=
    match fileLines with
    | some ls => envFileKey ls
    | none => none
  match fileKey with
  | some k => some k
  | none =>
    match envVar with
    | some k => if keyPlaceholder k then none else some k
    | none => none

/-- Remote Text Extractor, `llm_to_markdown` (`ocr_to_md.py` lines 24-122):
resolve the credential (fall back to `ocr_to_markdown` when none), send the
request, and on success return the first choice's content stripped with one
`"\n"` appended; on timeout, on any `requests` error, and on any other
exception fall back to `ocr_to_markdown` on the same image and language. -/
def llm_to_markdown (env : Env) (lang : Str) : Except ExtErr ExtractOut :=
  match resolveApiKey env.envFileLines env.envVarKey with
  | none => ocr_to_markdown env lang
  | some _ =>
    match env.net with
    | .content s => .ok ⟨pyStrip s ++ ['\n'], .llm, lang⟩
    | .timeout => ocr_to_markdown env lang
    | .requestError _ => ocr_to_markdown env lang
    | .badResponse _ => ocr_to_markdown env lang

/-- The upload allow-list `ALLOWED_EXTENSIONS` (`app.py` line 31). -/
def allowedExtensions : List Str :=
  [("png".toList), ("jpg".toList), ("jpeg".toList), ("gif".toList),
   ("bmp".toList), ("tiff".toList), ("pdf".toList)]

/-- `str.lower()`, per character (adequate for ASCII filenames). -/
def pyLower (s : Str) : Str := s.map Char.toLower

/-- `filename.rsplit('.', 1)[1]`, given that `'.'` occurs in `filename`:
the part after the last dot. -/
def afterLastDot (s : Str) : Str := (s.reverse.takeWhile (fun c => c ≠ '.')).reverse

/-- `allowed_file` (`app.py` lines 37-40):
`'.' in filename and filename.rsplit('.', 1)[1].lower() in ALLOWED_EXTENSIONS`. -/
def allowed_file (filename : Str) : Bool :=
  filename.contains '.' && allowedExtensions.contains (pyLower (afterLastDot filename))

/-- The `file` part of an upload request: the (possibly empty) client-supplied
filename and the byte size of the content. A `FileStorage` object is falsy
exactly when its filename is empty, so the source's
`not file or not file.filename or file.filename == ''` collapses to an
empty-filename test. -/
structure ReqFile where
  filename : Str
  size : Nat
deriving DecidableEq

/-- Response of `upload_file`. -/
inductive UploadResp where
  | error400 (msg : Str)
  | uploaded (file_id : Str) (original_name : Str) (size : Nat)
deriving DecidableEq

/-- The upload directory, as the set of stored file names. -/
def Store := Str → Bool

/-- `upload_file` (`app.py` lines 55-89): reject a missing file part, an
empty filename, or a disallowed extension with 400; otherwise store the
content under `f"{uuid4()}_{secure_filename(name)}"` and report it. -/
def upload_file (env : Env) (st : Store) (reqFile : Option ReqFile) :
    UploadResp × Store :=
  match reqFile with
  | none => (.error400 ("No file provided".toList), st)
  | some f =>
    if f.filename.isEmpty then (.error400 ("No file selected".toList), st)
    else if allowed_file f.filename = false then
      (.error400 ("File type not supported".toList), st)
    else
      let filename := env.secureFilename f.filename
      let uniqueFilename := env.uuid ++ '_' :: filename
      (.uploaded uniqueFilename filename f.size,
       fun x => if x = uniqueFilename then true else st x)

/-- JSON body of a `/api/process` request; a field is `none` when the key
is absent (or null) in the JSON object. -/
structure ProcBody where
  file_id : Option Str
  method : Option Str
  language : Option Str

/-- `data.get(key, default)`. -/
def pyGetD (o : Option Str) (d : Str) : Str :=
  match o with
  | some s => s
  | none => d

/-- `lines = [line.strip() for line in markdown_content.split('\n') if line.strip()]`
(`app.py` line 123). -/
def extractLines (md : Str) : List Str :=
  ((pySplitCh '\n' md).filter (fun ln => !(pyStrip ln).isEmpty)).map pyStrip

/-- The `data` payload of a successful `/api/process` response
(`app.py` lines 126-132). -/
structure ExtractedData where
  raw_text : Str
  lines : List Str
  method_used : Str
  language : Str
  file_id : Str
deriving DecidableEq

/-- Response of `process_ocr`. -/
inductive ProcResp where
  | error400 (msg : Str)
  | error404
  | error500
  | success (data : ExtractedData)
deriving DecidableEq

/-- Method dispatch inside `process_ocr` (`app.py` lines 114-119):
`llm_to_markdown` when `method == 'llm'`, else `ocr_to_markdown`. -/
def dispatchExtract (env : Env) (method lang : Str) : Except ExtErr ExtractOut :=
  if method = ("llm".toList) then llm_to_markdown env lang
  else ocr_to_markdown env lang

/-- `cleanup_file` (`app.py` lines 42-48) applied to the store: remove the
file when the filesystem permits; a deletion failure is swallowed and only
logged, leaving the store unchanged. -/
def cleanup_file (env : Env) (st : Store) (fid : Str) : Store :=
  if env.deleteOk then (fun x => if x = fid then false else st x) else st

/-- `process_ocr` (`app.py` lines 91-149): parse the body, resolve the
token against the upload folder (404 when absent), dispatch to the
selected extractor, build the response, and in the `finally` block always
invoke `cleanup_file` on the stored file, whether extraction returned or
raised. -/
def process_ocr (env : Env) (st : Store) (body : Option ProcBody) :
    ProcResp × Store :=
  match body with
  | none => (.error400 ("No data provided".toList), st)
  | some b =>
    let method := pyGetD b.method ("ocr".toList)
    let language := pyGetD b.language ("eng".toList)
    let fid := pyGetD b.file_id []
    if fid.isEmpty then (.error400 ("No file_id provided".toList), st)
    else if st fid = false then (.error404, st)
    else
      let result := dispatchExtract env method language
      let st2 := cleanup_file env st fid
      match result with
      | .ok out =>
        (.success ⟨out.text, extractLines out.text, method, language, fid⟩, st2)
      | .error _ => (.error500, st2)

/-- The static language list returned by `GET /api/languages`
(`app.py` lines 163-176), as (code, name) pairs. -/
def get_available_languages : List (Str × Str) :=
  [(("eng".toList), ("English".toList)),
   (("hrv".toList), ("Croatian".toList)),
   (("fra".toList), ("French".toList)),
   (("deu".toList), ("German".toList)),
   (("spa".toList), ("Spanish".toList)),
   (("ita".toList), ("Italian".toList)),
   (("eng+hrv".toList), ("English + Croatian".toList))]

/-- Drop blank lines from the front of a line list. -/
def trimBlanksL (L : List Str) : List Str := L.dropWhile isBlank

/-- Drop blank lines from the back of a line list. -/
def trimBlanksR (L : List Str) : List Str := (L.reverse.dropWhile isBlank).reverse

/-- Apply `f` to the first element only. -/
def mapHead (f : Str → Str) : List Str → List Str
  | [] => []
  | a :: t => f a :: t

/-- The blank-collapsed, rstripped line list built by `ocr_to_markdown`. -/
def collapsedLines (text : Str) : List Str :=
  collapseBlanks ((pySplitlines text).map pyRstrip) 0

/-- The line decomposition of `mdCore text`: the collapsed lines with
leading and trailing blank lines removed by the final `strip()` and with
the first line's leading whitespace removed by it as well. -/
def normLines (text : Str) : List Str :=
  mapHead pyLstrip (trimBlanksL (trimBlanksR (collapsedLines text)))

/-- A base environment for concrete test instances. -/
def baseEnv : Env where
  tesseract := fun _ => .text ("hello".toList)
  decodeOk := true
  envFileLines := none
  envVarKey := none
  net := .timeout
  deleteOk := true
  secureFilename := fun s => s
  uuid := ("u1".toList)

/-- Environment for the C2 counterexample: a valid credential is present
and the model responds with text containing a run of two blank lines. -/
def envC2 : Env := { baseEnv with
  envFileLines := some [("OPENROUTER_API_KEY=sk-or-v1-abcdef".toList)],
  net := .content ("a\n\n\nb".toList) }

/-- Environment for the C3 witness: valid credential, network timeout. -/
def envC3 : Env := { baseEnv with
  envFileLines := some [("OPENROUTER_API_KEY=sk-or-v1-abc".toList)] }

/-- Environment for the C4 witness: the secrets file holds only
placeholder entries and the environment variable is a placeholder. -/
def envC4 : Env := { baseEnv with
  envFileLines := some
    [("# comment".toList),
     ("OPENROUTER_API_KEY=your_api_key_here".toList),
     ("OPENROUTER_API_KEY=\"your-key\"".toList)],
  envVarKey := some ("your-other-key".toList) }

/-- Environment for the C7 witness: the engine lacks the Croatian language
pack but recognises text under the default language. -/
def envC7 : Env := { baseEnv with
  tesseract := fun l =>
    if l = ("hrv".toList) then TessOutcome.err ("Failed loading language: hrv".toList)
    else TessOutcome.text ("hi".toList) }

/-- Environment for the C7 witness's second part: the engine always fails
with an error unrelated to language data. -/
def envC7b : Env := { baseEnv with
  tesseract := fun _ => TessOutcome.err ("engine crashed".toList) }

/-- The store containing exactly the stored file `f1`. -/
def st1 : Store := fun x => x == ("f1".toList)

/-- A process body requesting the default method on `f1`. -/
def bodyOcr : ProcBody := ⟨some ("f1".toList), none, none⟩

/-- A process body requesting the remote method (`llm`) on `f1`. -/
def bodyLlm : ProcBody := ⟨some ("f1".toList), some ("llm".toList), some ("eng".toList)⟩

/-- A process body requesting the local method with language `hrv`. -/
def bodyHrv : ProcBody := ⟨some ("f1".toList), some ("ocr".toList), some ("hrv".toList)⟩

/-- Environment whose OCR engine lacks the Croatian language pack. -/
def envC1b : Env := { baseEnv with
  tesseract := fun l =>
    if l = ("hrv".toList) then TessOutcome.err ("Failed loading language: hrv".toList)
    else TessOutcome.text ("hello".toList) }

theorem dropWhile_isEmpty_eq_all {α : Type} (p : α → Bool) (l : List α) :
    (l.dropWhile p).isEmpty = l.all p := by
  induction l with
  | nil => rfl
  | cons c t ih =>
    by_cases h : p c
    · simp [List.dropWhile_cons, h, ih]
    · simp [List.dropWhile_cons, h]

theorem dropWhile_all_eq {α : Type} (p : α → Bool) (l : List α) :
    (l.dropWhile p).all p = l.all p := by
  induction l with
  | nil => rfl
  | cons c t ih =>
    by_cases h : p c
    · simp [List.dropWhile_cons, h, ih]
    · simp [List.dropWhile_cons, h]

theorem pyLstrip_isEmpty (l : Str) : (pyLstrip l).isEmpty = l.all pyWS :=
  dropWhile_isEmpty_eq_all pyWS l

theorem isEmpty_reverse {α : Type} (l : List α) : l.reverse.isEmpty = l.isEmpty := by
  rw [Bool.eq_iff_iff, List.isEmpty_iff, List.isEmpty_iff, List.reverse_eq_nil_iff]

theorem pyRstrip_isEmpty (l : Str) : (pyRstrip l).isEmpty = l.all pyWS := by
  unfold pyRstrip
  rw [isEmpty_reverse, dropWhile_isEmpty_eq_all, List.all_reverse]

theorem isBlank_eq_all (l : Str) : isBlank l = l.all pyWS := by
  unfold isBlank pyStrip
  rw [pyLstrip_isEmpty]
  unfold pyRstrip
  rw [List.all_reverse, dropWhile_all_eq, List.all_reverse]

theorem isBlank_pyLstrip (l : Str) : isBlank (pyLstrip l) = isBlank l := by
  rw [isBlank_eq_all, isBlank_eq_all]
  exact dropWhile_all_eq pyWS l

theorem dropWhile_idem {α : Type} (p : α → Bool) (l : List α) :
    (l.dropWhile p).dropWhile p = l.dropWhile p := by
  cases h : l.dropWhile p with
  | nil => rfl
  | cons a t =>
    have hp := List.head?_dropWhile_not p l
    rw [h] at hp
    simp only [List.head?_cons] at hp
    simp [List.dropWhile_cons, hp]

theorem pyRstrip_idem (l : Str) : pyRstrip (pyRstrip l) = pyRstrip l := by
  unfold pyRstrip
  rw [List.reverse_reverse, dropWhile_idem]

theorem pyLstrip_append_not_blank (a x : Str) (h : isBlank a = false) :
    pyLstrip (a ++ x) = pyLstrip a ++ x := by
  have hne : (a.dropWhile pyWS).isEmpty = false := by
    rw [dropWhile_isEmpty_eq_all, ← isBlank_eq_all]; exact h
  unfold pyLstrip
  rw [List.dropWhile_append, hne]
  simp

theorem pyRstrip_append_not_blank (x b : Str) (h : isBlank b = false) :
    pyRstrip (x ++ b) = x ++ pyRstrip b := by
  have hne : (b.reverse.dropWhile pyWS).isEmpty = false := by
    rw [dropWhile_isEmpty_eq_all, List.all_reverse, ← isBlank_eq_all]; exact h
  unfold pyRstrip
  rw [List.reverse_append, List.dropWhile_append, hne]
  simp

theorem pyRstrip_append_ws (x b : Str) (h : b.all pyWS = true) :
    pyRstrip (x ++ b) = pyRstrip x := by
  have he : (b.reverse.dropWhile pyWS).isEmpty = true := by
    rw [dropWhile_isEmpty_eq_all, List.all_reverse]; exact h
  unfold pyRstrip
  rw [List.reverse_append, List.dropWhile_append, he]
  simp

theorem pyLstrip_cons_of_ws (c : Char) (x : Str) (h : pyWS c = true) :
    pyLstrip (c :: x) = pyLstrip x := by
  simp [pyLstrip, List.dropWhile_cons, h]

theorem joinNL_cons (l : Str) (L : List Str) (h : L ≠ []) :
    joinNL (l :: L) = l ++ '\n' :: joinNL L := by
  cases L with
  | nil => exact absurd rfl h
  | cons b t => rfl

theorem mem_of_mem_joinNL {c : Char} : ∀ {L : List Str}, c ∈ joinNL L →
    c = '\n' ∨ ∃ l ∈ L, c ∈ l := by
  intro L
  induction L with
  | nil => intro h; cases h
  | cons a t ih =>
    intro h
    cases t with
    | nil => exact Or.inr ⟨a, by simp, h⟩
    | cons b t2 =>
      rw [joinNL_cons a _ (by simp)] at h
      rcases List.mem_append.mp h with h1 | h2
      · exact Or.inr ⟨a, by simp, h1⟩
      · rcases List.mem_cons.mp h2 with h3 | h4
        · exact Or.inl h3
        · rcases ih h4 with h5 | ⟨l, hl, hc⟩
          · exact Or.inl h5
          · exact Or.inr ⟨l, by simp [hl], hc⟩

theorem mem_joinNL_of_mem {c : Char} {l : Str} : ∀ {L : List Str},
    l ∈ L → c ∈ l → c ∈ joinNL L := by
  intro L
  induction L with
  | nil => intro hl; cases hl
  | cons a t ih =>
    intro hl hc
    cases t with
    | nil =>
      rcases List.mem_cons.mp hl with h | h
      · subst h; exact hc
      · cases h
    | cons b t2 =>
      rw [joinNL_cons a _ (by simp)]
      rcases List.mem_cons.mp hl with h | h
      · subst h; exact List.mem_append.mpr (Or.inl hc)
      · exact List.mem_append.mpr (Or.inr (List.mem_cons.mpr (Or.inr (ih h hc))))

theorem joinNL_all_ws (L : List Str) (h : ∀ l ∈ L, isBlank l = true) :
    (joinNL L).all pyWS = true := by
  rw [List.all_eq_true]
  intro c hc
  rcases mem_of_mem_joinNL hc with rfl | ⟨l, hl, hcl⟩
  · decide
  · have hb := h l hl
    rw [isBlank_eq_all] at hb
    exact List.all_eq_true.mp hb c hcl

theorem mem_collapseBlanks {l : Str} : ∀ {L : List Str} {e : Nat},
    l ∈ collapseBlanks L e → l ∈ L ∨ l = [] := by
  intro L
  induction L with
  | nil => intro e h; cases h
  | cons a t ih =>
    intro e h
    unfold collapseBlanks at h
    by_cases ha : (pyStrip a).isEmpty = false
    · rw [if_pos ha] at h
      rcases List.mem_cons.mp h with h1 | h2
      · exact Or.inl (by simp [h1])
      · rcases ih h2 with h3 | h3
        · exact Or.inl (by simp [h3])
        · exact Or.inr h3
    · rw [if_neg ha] at h
      by_cases he : e + 1 < 2
      · rw [if_pos he] at h
        rcases List.mem_cons.mp h with h1 | h2
        · exact Or.inr h1
        · rcases ih h2 with h3 | h3
          · exact Or.inl (by simp [h3])
          · exact Or.inr h3
      · rw [if_neg he] at h
        rcases ih h with h3 | h3
        · exact Or.inl (by simp [h3])
        · exact Or.inr h3

theorem collapseBlanks_blank_nil : ∀ (L : List Str) (e : Nat),
    ∀ l ∈ collapseBlanks L e, isBlank l = true → l = [] := by
  intro L
  induction L with
  | nil => intro e l h; cases h
  | cons a t ih =>
    intro e l h hbl
    unfold collapseBlanks at h
    by_cases ha : (pyStrip a).isEmpty = false
    · rw [if_pos ha] at h
      rcases List.mem_cons.mp h with h1 | h2
      · subst h1; exact absurd hbl (by simp [isBlank, ha])
      · exact ih 0 l h2 hbl
    · rw [if_neg ha] at h
      by_cases he : e + 1 < 2
      · rw [if_pos he] at h
        rcases List.mem_cons.mp h with h1 | h2
        · exact h1
        · exact ih (e + 1) l h2 hbl
      · rw [if_neg he] at h
        exact ih (e + 1) l h hbl

theorem noTwoAdjBlank_cons_of_not_blank (a : Str) (X : List Str)
    (h : isBlank a = false) : noTwoAdjBlank (a :: X) = noTwoAdjBlank X := by
  cases X with
  | nil => rfl
  | cons b t => simp [noTwoAdjBlank, h]

theorem collapseBlanks_noTwo : ∀ (L : List Str) (e : Nat),
    noTwoAdjBlank (collapseBlanks L e) = true ∧
    (∀ b t, 1 ≤ e → collapseBlanks L e = b :: t → isBlank b = false) := by
  intro L
  induction L with
  | nil =>
    intro e
    refine ⟨rfl, ?_⟩
    intro b t _ h
    cases h
  | cons a t ih =>
    intro e
    unfold collapseBlanks
    by_cases ha : (pyStrip a).isEmpty = false
    · rw [if_pos ha]
      have hba : isBlank a = false := by simp [isBlank, ha]
      constructor
      · rw [noTwoAdjBlank_cons_of_not_blank a _ hba]
        exact (ih 0).1
      · intro b t2 _ h
        injection h with h1 _
        subst h1
        exact hba
    · rw [if_neg ha]
      have hba : isBlank a = true := by
        unfold isBlank
        exact eq_true_of_ne_false ha
      by_cases he : e + 1 < 2
      · rw [if_pos he]
        have he0 : e = 0 := by omega
        subst he0
        constructor
        · show noTwoAdjBlank ([] :: collapseBlanks t 1) = true
          cases hX : collapseBlanks t 1 with
          | nil => rfl
          | cons b t2 =>
            have hb := (ih 1).2 b t2 (by omega) hX
            have h1 := (ih 1).1
            rw [hX] at h1
            simp [noTwoAdjBlank, hb, h1]
        · intro b t2 hge h
          omega
      · rw [if_neg he]
        constructor
        · exact (ih (e + 1)).1
        · intro b t2 _ h
          exact (ih (e + 1)).2 b t2 (by omega) h

theorem mem_trimBlanksL {l : Str} {L : List Str} (h : l ∈ trimBlanksL L) : l ∈ L :=
  List.Sublist.mem h (List.dropWhile_sublist isBlank)

theorem mem_trimBlanksR {l : Str} {L : List Str} (h : l ∈ trimBlanksR L) : l ∈ L := by
  unfold trimBlanksR at h
  rw [List.mem_reverse] at h
  exact List.mem_reverse.mp (List.Sublist.mem h (List.dropWhile_sublist isBlank))

theorem not_all_blank_of_mem {l : Str} {L : List Str} (hl : l ∈ L)
    (hb : isBlank l = false) : L.all isBlank = false := by
  rw [List.all_eq_false]
  exact ⟨l, hl, by simp [hb]⟩

theorem exists_not_ws_of_not_blank {l : Str} (h : isBlank l = false) :
    ∃ c ∈ l, pyWS c = false := by
  rw [isBlank_eq_all] at h
  rcases List.all_eq_false.mp h with ⟨c, hc, hw⟩
  exact ⟨c, hc, by simpa using hw⟩

theorem isBlank_joinNL_false {L : List Str} {l : Str} (hl : l ∈ L)
    (hb : isBlank l = false) : isBlank (joinNL L) = false := by
  rcases exists_not_ws_of_not_blank hb with ⟨c, hc, hw⟩
  rw [isBlank_eq_all]
  rw [List.all_eq_false]
  exact ⟨c, mem_joinNL_of_mem hl hc, by simp [hw]⟩

theorem pyRstrip_joinNL : ∀ (M : List Str),
    (∀ l ∈ M, isBlank l = true → l = []) → (∀ l ∈ M, pyRstrip l = l) →
    pyRstrip (joinNL M) = joinNL (trimBlanksR M) := by
  intro M
  induction M with
  | nil => intro _ _; rfl
  | cons a t ih =>
    intro hb hf
    cases t with
    | nil =>
      show pyRstrip a = joinNL (trimBlanksR [a])
      cases hba : isBlank a with
      | true =>
        have ha : a = [] := hb a (by simp) hba
        subst ha
        rfl
      | false =>
        rw [hf a (by simp)]
        unfold trimBlanksR
        simp [List.dropWhile_cons, hba]
        rfl
    | cons b t2 =>
      rw [joinNL_cons a _ (by simp)]
      by_cases hall : ∀ l ∈ b :: t2, isBlank l = true
      · -- the whole tail is blank, hence all newlines and empties
        have hws : ('\n' :: joinNL (b :: t2)).all pyWS = true := by
          rw [List.all_cons]
          rw [Bool.and_eq_true]
          exact ⟨by decide, joinNL_all_ws _ hall⟩
        rw [show a ++ '\n' :: joinNL (b :: t2) = a ++ ('\n' :: joinNL (b :: t2)) from rfl]
        rw [pyRstrip_append_ws a _ hws]
        have htrim : (b :: t2).reverse.all isBlank = true := by
          rw [List.all_reverse]
          rw [List.all_eq_true]
          intro x hx
          exact hall x hx
        cases hba : isBlank a with
        | true =>
          have ha : a = [] := hb a (by simp) hba
          subst ha
          have : trimBlanksR ([] :: b :: t2) = [] := by
            unfold trimBlanksR
            rw [List.reverse_cons]
            rw [List.dropWhile_append_of_pos (by
              intro x hx
              exact List.all_eq_true.mp htrim x hx)]
            simp [List.dropWhile_cons]
            rfl
          rw [this]
          rfl
        | false =>
          have : trimBlanksR (a :: b :: t2) = [a] := by
            unfold trimBlanksR
            rw [List.reverse_cons]
            rw [List.dropWhile_append_of_pos (by
              intro x hx
              exact List.all_eq_true.mp htrim x hx)]
            simp [List.dropWhile_cons, hba]
          rw [this, hf a (by simp)]
          rfl
      · -- some tail line is non-blank
        have hex : ∃ l ∈ b :: t2, isBlank l = false := by
          by_contra hno
          push_neg at hno
          refine hall ?_
          intro l hl
          have h1 := hno l hl
          cases hbl : isBlank l with
          | true => rfl
          | false => exact absurd hbl h1
        rcases hex with ⟨l0, hl0, hb0⟩
        have hJblank : isBlank ('\n' :: joinNL (b :: t2)) = false := by
          rcases exists_not_ws_of_not_blank hb0 with ⟨c, hc, hw⟩
          rw [isBlank_eq_all, List.all_eq_false]
          exact ⟨c, by simp [mem_joinNL_of_mem hl0 hc], by simp [hw]⟩
        rw [pyRstrip_append_not_blank a _ hJblank]
        have hJblank2 : isBlank (joinNL (b :: t2)) = false :=
          isBlank_joinNL_false hl0 hb0
        have hcons : pyRstrip ('\n' :: joinNL (b :: t2)) =
            '\n' :: pyRstrip (joinNL (b :: t2)) := by
          have : ('\n' :: joinNL (b :: t2)) = ['\n'] ++ joinNL (b :: t2) := rfl
          rw [this, pyRstrip_append_not_blank _ _ hJblank2]
          rfl
        rw [hcons]
        have ihj := ih (fun l hl => hb l (by simp [hl])) (fun l hl => hf l (by simp [hl]))
        rw [ihj]
        have hne : (List.dropWhile isBlank (b :: t2).reverse).isEmpty = false := by
          rw [dropWhile_isEmpty_eq_all, List.all_reverse]
          exact not_all_blank_of_mem hl0 hb0
        have htrimR : trimBlanksR (a :: b :: t2) = a :: trimBlanksR (b :: t2) := by
          unfold trimBlanksR
          rw [List.reverse_cons, List.dropWhile_append, hne]
          simp
        rw [htrimR]
        have htne : trimBlanksR (b :: t2) ≠ [] := by
          unfold trimBlanksR
          intro h
          rw [List.reverse_eq_nil_iff] at h
          rw [h] at hne
          simp at hne
        rw [joinNL_cons _ _ htne]

theorem trimBlanksL_cons_blank {a : Str} {t : List Str} (h : isBlank a = true) :
    trimBlanksL (a :: t) = trimBlanksL t := by
  simp [trimBlanksL, List.dropWhile_cons, h]

theorem trimBlanksL_cons_not_blank {a : Str} {t : List Str} (h : isBlank a = false) :
    trimBlanksL (a :: t) = a :: t := by
  simp [trimBlanksL, List.dropWhile_cons, h]

theorem pyLstrip_joinNL : ∀ (M : List Str),
    (∀ l ∈ M, isBlank l = true → l = []) →
    pyLstrip (joinNL M) = joinNL (mapHead pyLstrip (trimBlanksL M)) := by
  intro M
  induction M with
  | nil => intro _; rfl
  | cons a t ih =>
    intro hb
    cases hba : isBlank a with
    | true =>
      have ha : a = [] := hb a (by simp) hba
      subst ha
      rw [trimBlanksL_cons_blank hba]
      cases t with
      | nil => rfl
      | cons b t2 =>
        rw [joinNL_cons _ _ (by simp)]
        show pyLstrip ('\n' :: joinNL (b :: t2)) = _
        rw [pyLstrip_cons_of_ws '\n' _ (by decide)]
        exact ih (fun l hl => hb l (by simp [hl]))
    | false =>
      rw [trimBlanksL_cons_not_blank hba]
      cases t with
      | nil =>
        show pyLstrip a = joinNL [pyLstrip a]
        rfl
      | cons b t2 =>
        rw [joinNL_cons _ _ (by simp)]
        rw [pyLstrip_append_not_blank a _ hba]
        show pyLstrip a ++ '\n' :: joinNL (b :: t2) =
          joinNL (pyLstrip a :: b :: t2)
        exact (joinNL_cons (pyLstrip a) (b :: t2) (by simp)).symm

theorem collapsedLines_blank_nil (s : Str) :
    ∀ l ∈ collapsedLines s, isBlank l = true → l = [] :=
  collapseBlanks_blank_nil _ 0

theorem collapsedLines_rstrip_fix (s : Str) :
    ∀ l ∈ collapsedLines s, pyRstrip l = l := by
  intro l hl
  rcases mem_collapseBlanks hl with h | h
  · rcases List.mem_map.mp h with ⟨x, _, rfl⟩
    exact pyRstrip_idem x
  · subst h
    rfl

theorem mdCore_eq_joinNL (s : Str) : mdCore s = joinNL (normLines s) := by
  have hb := collapsedLines_blank_nil s
  have hf := collapsedLines_rstrip_fix s
  show pyStrip (joinNL (collapsedLines s)) = _
  unfold pyStrip
  rw [pyRstrip_joinNL _ hb hf]
  rw [pyLstrip_joinNL _ (fun l hl => hb l (mem_trimBlanksR hl))]
  rfl

theorem noTwoAdjBlank_of_cons {x : Str} {X : List Str}
    (h : noTwoAdjBlank (x :: X) = true) : noTwoAdjBlank X = true := by
  cases X with
  | nil => rfl
  | cons b t =>
    have h' : (!(isBlank x && isBlank b) && noTwoAdjBlank (b :: t)) = true := h
    rw [Bool.and_eq_true] at h'
    exact h'.2

theorem noTwoAdjBlank_append_left : ∀ (P Q : List Str),
    noTwoAdjBlank (P ++ Q) = true → noTwoAdjBlank P = true := by
  intro P Q
  induction P with
  | nil => intro _; rfl
  | cons a P' ih =>
    intro h
    cases P' with
    | nil => rfl
    | cons b t =>
      have h' : (!(isBlank a && isBlank b) && noTwoAdjBlank ((b :: t) ++ Q)) = true := h
      rw [Bool.and_eq_true] at h'
      show (!(isBlank a && isBlank b) && noTwoAdjBlank (b :: t)) = true
      rw [Bool.and_eq_true]
      exact ⟨h'.1, ih h'.2⟩

theorem noTwoAdjBlank_append_right : ∀ (P Q : List Str),
    noTwoAdjBlank (P ++ Q) = true → noTwoAdjBlank Q = true := by
  intro P Q
  induction P with
  | nil => intro h; exact h
  | cons a P' ih =>
    intro h
    exact ih (noTwoAdjBlank_of_cons h)

theorem noTwoAdjBlank_mapHead {f : Str → Str} (hfb : ∀ a, isBlank (f a) = isBlank a) :
    ∀ L, noTwoAdjBlank (mapHead f L) = noTwoAdjBlank L := by
  intro L
  cases L with
  | nil => rfl
  | cons a t =>
    cases t with
    | nil => rfl
    | cons b t2 =>
      show (!(isBlank (f a) && isBlank b) && noTwoAdjBlank (b :: t2)) = _
      rw [hfb a]
      rfl

theorem trimBlanksR_decomp (L : List Str) :
    trimBlanksR L ++ (L.reverse.takeWhile isBlank).reverse = L := by
  unfold trimBlanksR
  rw [← List.reverse_append, List.takeWhile_append_dropWhile, List.reverse_reverse]

theorem trimBlanksL_decomp (L : List Str) :
    L.takeWhile isBlank ++ trimBlanksL L = L :=
  List.takeWhile_append_dropWhile isBlank L

theorem dropWhile_head_not {α : Type} {p : α → Bool} {l : List α} {a : α} {t : List α}
    (h : l.dropWhile p = a :: t) : p a = false := by
  have hp := List.head?_dropWhile_not p l
  rw [h] at hp
  simpa using hp

theorem trimBlanksR_getLast_not_blank {L : List Str} (hne : trimBlanksR L ≠ []) :
    ∃ z, (trimBlanksR L).getLast? = some z ∧ isBlank z = false := by
  unfold trimBlanksR at *
  rw [List.getLast?_reverse]
  cases hX : L.reverse.dropWhile isBlank with
  | nil => rw [hX] at hne; simp at hne
  | cons a t =>
    exact ⟨a, rfl, dropWhile_head_not hX⟩

theorem trimBlanksL_getLast (L : List Str) (h : trimBlanksL L ≠ []) :
    (trimBlanksL L).getLast? = L.getLast? := by
  have hd : L.takeWhile isBlank ++ trimBlanksL L = L := trimBlanksL_decomp L
  conv_rhs => rw [← hd]
  rw [List.getLast?_append]
  cases hg : (trimBlanksL L).getLast? with
  | none => exact absurd (List.getLast?_eq_none_iff.mp hg) h
  | some z => simp

theorem normLines_shape (s : Str) :
    (∀ l ∈ normLines s, isBlank l = true → l = []) ∧
    noTwoAdjBlank (normLines s) = true ∧
    (normLines s = [] ∨
      ((∃ a, (normLines s).head? = some a ∧ isBlank a = false) ∧
       (∃ z, (normLines s).getLast? = some z ∧ isBlank z = false))) := by
  have hbM := collapsedLines_blank_nil s
  have hnoM : noTwoAdjBlank (collapsedLines s) = true :=
    (collapseBlanks_noTwo _ 0).1
  have hnoR : noTwoAdjBlank (trimBlanksR (collapsedLines s)) = true := by
    have h2 : noTwoAdjBlank (trimBlanksR (collapsedLines s) ++
        ((collapsedLines s).reverse.takeWhile isBlank).reverse) = true := by
      rw [trimBlanksR_decomp]
      exact hnoM
    exact noTwoAdjBlank_append_left _ _ h2
  have hnoY : noTwoAdjBlank (trimBlanksL (trimBlanksR (collapsedLines s))) = true := by
    have h2 : noTwoAdjBlank (((trimBlanksR (collapsedLines s)).takeWhile isBlank) ++
        trimBlanksL (trimBlanksR (collapsedLines s))) = true := by
      rw [trimBlanksL_decomp]
      exact hnoR
    exact noTwoAdjBlank_append_right _ _ h2
  refine ⟨?_, ?_, ?_⟩
  · -- every blank line of normLines is the empty line
    intro l hl hbl
    unfold normLines at hl
    cases hY : trimBlanksL (trimBlanksR (collapsedLines s)) with
    | nil => rw [hY] at hl; cases hl
    | cons a t =>
      rw [hY] at hl
      have haM : a ∈ collapsedLines s :=
        mem_trimBlanksR (mem_trimBlanksL (by rw [hY]; simp))
      rcases List.mem_cons.mp hl with h1 | h2
      · subst h1
        rw [isBlank_pyLstrip] at hbl
        have := hbM a haM hbl
        rw [this]
        rfl
      · exact hbM l (mem_trimBlanksR (mem_trimBlanksL (by rw [hY]; simp [h2]))) hbl
  · unfold normLines
    rw [noTwoAdjBlank_mapHead isBlank_pyLstrip]
    exact hnoY
  · unfold normLines
    cases hY : trimBlanksL (trimBlanksR (collapsedLines s)) with
    | nil => exact Or.inl rfl
    | cons a t =>
      refine Or.inr ⟨?_, ?_⟩
      · refine ⟨pyLstrip a, rfl, ?_⟩
        rw [isBlank_pyLstrip]
        exact dropWhile_head_not hY
      · have hRne : trimBlanksR (collapsedLines s) ≠ [] := by
          intro h0
          rw [h0] at hY
          cases hY
        rcases trimBlanksR_getLast_not_blank hRne with ⟨z, hz, hzb⟩
        have hYlast : (trimBlanksL (trimBlanksR (collapsedLines s))).getLast? =
            some z := by
          rw [trimBlanksL_getLast _ (by rw [hY]; simp), hz]
        rw [hY] at hYlast
        cases t with
        | nil =>
          -- the single line is both first and last
          simp only [List.getLast?_singleton] at hYlast
          injection hYlast with hza
          refine ⟨pyLstrip a, rfl, ?_⟩
          rw [isBlank_pyLstrip]
          rw [hza]
          exact hzb
        | cons b t2 =>
          refine ⟨z, ?_, hzb⟩
          show (pyLstrip a :: b :: t2).getLast? = some z
          rw [List.getLast?_cons_cons]
          rw [List.getLast?_cons_cons] at hYlast
          exact hYlast

theorem splitlinesAux_nil (acc : Str) :
    splitlinesAux [] acc = if acc.isEmpty then [] else [acc.reverse] := rfl

theorem splitlinesAux_nl (rest acc : Str) :
    splitlinesAux ('\n' :: rest) acc = acc.reverse :: splitlinesAux rest [] := rfl

set_option maxHeartbeats 3200000 in
theorem splitlinesAux_cons_generic (c : Char) (rest acc : Str)
    (h : ∀ r2, c = '\r' → rest = '\n' :: r2 → False) :
    splitlinesAux (c :: rest) acc =
      if lineBreak c = true then acc.reverse :: splitlinesAux rest []
      else splitlinesAux rest (c :: acc) :=
  splitlinesAux.eq_3 acc c rest h

theorem splitlinesAux_cons_not_break (c : Char) (rest acc : Str)
    (h : lineBreak c = false) :
    splitlinesAux (c :: rest) acc = splitlinesAux rest (c :: acc) := by
  rw [splitlinesAux_cons_generic c rest acc
    (fun r2 e _ => by subst e; exact absurd h (by decide))]
  rw [if_neg]
  rw [h]
  simp

theorem splitlinesAux_breakFree : ∀ (s acc : Str),
    (∀ c ∈ acc, lineBreak c = false) →
    ∀ l ∈ splitlinesAux s acc, ∀ c ∈ l, lineBreak c = false := by
  intro s acc
  induction s, acc using splitlinesAux.induct with
  | case1 acc hacc =>
    intro _ l hl
    rw [splitlinesAux_nil, if_pos hacc] at hl
    cases hl
  | case2 acc hacc =>
    intro hc l hl
    rw [splitlinesAux_nil, if_neg hacc] at hl
    rcases List.mem_cons.mp hl with h1 | h1
    · subst h1
      intro c hcl
      exact hc c (List.mem_reverse.mp hcl)
    · cases h1
  | case3 rest acc ih =>
    intro hc l hl
    rcases List.mem_cons.mp hl with h1 | h1
    · subst h1
      intro c hcl
      exact hc c (List.mem_reverse.mp hcl)
    · exact ih (by intro c hcm; cases hcm) l h1
  | case4 c rest acc hne hbr ih =>
    intro hc l hl
    rw [splitlinesAux_cons_generic c rest acc hne, if_pos hbr] at hl
    rcases List.mem_cons.mp hl with h1 | h1
    · subst h1
      intro d hcl
      exact hc d (List.mem_reverse.mp hcl)
    · exact ih (by intro d hcm; cases hcm) l h1
  | case5 c rest acc hne hbr ih =>
    intro hc l hl
    have hb : lineBreak c = false := by
      cases hx : lineBreak c with
      | false => rfl
      | true => exact absurd hx hbr
    rw [splitlinesAux_cons_not_break c rest acc hb] at hl
    refine ih ?_ l hl
    intro d hd
    rcases List.mem_cons.mp hd with h1 | h1
    · subst h1; exact hb
    · exact hc d h1

theorem pySplitlines_breakFree (s : Str) :
    ∀ l ∈ pySplitlines s, ∀ c ∈ l, lineBreak c = false :=
  splitlinesAux_breakFree s [] (by intro c hc; cases hc)

theorem splitlinesAux_append (a : Str) (hbf : ∀ c ∈ a, lineBreak c = false) :
    ∀ (rest acc : Str),
      splitlinesAux (a ++ rest) acc = splitlinesAux rest (a.reverse ++ acc) := by
  induction a with
  | nil => intro rest acc; rfl
  | cons c a2 ih =>
    intro rest acc
    have hc : lineBreak c = false := hbf c (by simp)
    rw [List.cons_append, splitlinesAux_cons_not_break c _ _ hc]
    rw [ih (fun x hx => hbf x (by simp [hx])) rest (c :: acc)]
    simp

theorem pySplitlines_joinNL : ∀ (L : List Str), L ≠ [] →
    (∀ l ∈ L, ∀ c ∈ l, lineBreak c = false) →
    pySplitlines (joinNL L ++ ['\n']) = L := by
  intro L
  induction L with
  | nil => intro h; exact absurd rfl h
  | cons a t ih =>
    intro _ hbf
    cases t with
    | nil =>
      show pySplitlines (a ++ ['\n']) = [a]
      unfold pySplitlines
      rw [splitlinesAux_append a (hbf a (by simp)) ['\n'] []]
      rw [splitlinesAux_nl, splitlinesAux_nil]
      simp
    | cons b t2 =>
      rw [joinNL_cons a _ (by simp)]
      have hsplit : (a ++ '\n' :: joinNL (b :: t2)) ++ ['\n'] =
          a ++ ('\n' :: (joinNL (b :: t2) ++ ['\n'])) := by simp
      rw [hsplit]
      unfold pySplitlines
      rw [splitlinesAux_append a (hbf a (by simp)) _ []]
      rw [splitlinesAux_nl]
      have ihr := ih (by simp) (fun l hl => hbf l (by simp [hl]))
      unfold pySplitlines at ihr
      rw [ihr]
      simp

theorem mem_str_pyRstrip {c : Char} {l : Str} (h : c ∈ pyRstrip l) : c ∈ l := by
  unfold pyRstrip at h
  rw [List.mem_reverse] at h
  exact List.mem_reverse.mp (List.Sublist.mem h (List.dropWhile_sublist pyWS))

theorem mem_str_pyLstrip {c : Char} {l : Str} (h : c ∈ pyLstrip l) : c ∈ l :=
  List.Sublist.mem h (List.dropWhile_sublist pyWS)

theorem normLines_breakFree (s : Str) :
    ∀ l ∈ normLines s, ∀ c ∈ l, lineBreak c = false := by
  have key : ∀ x ∈ collapsedLines s, ∀ c ∈ x, lineBreak c = false := by
    intro x hx d hd
    rcases mem_collapseBlanks hx with h | h
    · rcases List.mem_map.mp h with ⟨y, hy, rfl⟩
      exact pySplitlines_breakFree s y hy d (mem_str_pyRstrip hd)
    · subst h; cases hd
  intro l hl c hc
  unfold normLines at hl
  cases hY : trimBlanksL (trimBlanksR (collapsedLines s)) with
  | nil => rw [hY] at hl; cases hl
  | cons a t =>
    rw [hY] at hl
    rcases List.mem_cons.mp hl with h1 | h2
    · subst h1
      have haM : a ∈ collapsedLines s :=
        mem_trimBlanksR (mem_trimBlanksL (by rw [hY]; simp))
      exact key a haM c (mem_str_pyLstrip hc)
    · have hM : l ∈ collapsedLines s :=
        mem_trimBlanksR (mem_trimBlanksL (by rw [hY]; simp [h2]))
      exact key l hM c hc

theorem dropWhile_getLast {α : Type} (p : α → Bool) (l : List α)
    (h : l.dropWhile p ≠ []) :
    (l.dropWhile p).getLast? = l.getLast? := by
  conv_rhs => rw [← List.takeWhile_append_dropWhile p l]
  rw [List.getLast?_append]
  cases hg : (l.dropWhile p).getLast? with
  | none => exact absurd (List.getLast?_eq_none_iff.mp hg) h
  | some z => simp

theorem pyRstrip_getLast_not_ws (x : Str) (h : pyRstrip x ≠ []) :
    ∃ c, (pyRstrip x).getLast? = some c ∧ pyWS c = false := by
  unfold pyRstrip at *
  rw [List.getLast?_reverse]
  cases hX : x.reverse.dropWhile pyWS with
  | nil => rw [hX] at h; simp at h
  | cons a t => exact ⟨a, rfl, dropWhile_head_not hX⟩

theorem pyStrip_getLast_not_ws (x : Str) (h : pyStrip x ≠ []) :
    ∃ c, (pyStrip x).getLast? = some c ∧ pyWS c = false := by
  have hr : pyRstrip x ≠ [] := by
    intro h0
    refine h ?_
    unfold pyStrip pyLstrip
    rw [h0]
    rfl
  have hl : pyStrip x = (pyRstrip x).dropWhile pyWS := rfl
  rw [hl] at h ⊢
  rw [dropWhile_getLast pyWS _ h]
  exact pyRstrip_getLast_not_ws x hr

theorem endsWithOneNewline_of_core (core : Str) (h : core.getLast? ≠ some '\n') :
    endsWithOneNewline (core ++ ['\n']) = true := by
  unfold endsWithOneNewline
  rw [Bool.and_eq_true]
  constructor
  · rw [List.isSuffixOf_iff_suffix]
    exact ⟨core, rfl⟩
  · have hsf : ¬ (['\n', '\n'] : Str) <:+ (core ++ ['\n']) := by
      rintro ⟨u, hu⟩
      have h2 : (u ++ ['\n']) ++ ['\n'] = core ++ ['\n'] := by simpa using hu
      have h3 : u ++ ['\n'] = core := by
        have := congrArg List.reverse h2
        simp at this
        simpa using congrArg List.reverse this
      rw [← h3] at h
      exact h (by simp)
    cases hb : (['\n', '\n'] : Str).isSuffixOf (core ++ ['\n']) with
    | false => rfl
    | true => exact absurd (List.isSuffixOf_iff_suffix.mp hb) hsf

theorem joinNL_cons_ne_nil {a : Str} {t : List Str} (ha : a ≠ []) :
    joinNL (a :: t) ≠ [] := by
  cases t with
  | nil => exact ha
  | cons b t2 =>
    rw [joinNL_cons _ _ (by simp)]
    intro h
    rcases List.append_eq_nil.mp h with ⟨_, h2⟩
    cases h2

theorem not_blank_ne_nil {a : Str} (h : isBlank a = false) : a ≠ [] := by
  intro h0
  subst h0
  exact absurd h (by decide)

/-- Master property of the Markdown Normalizer: the output is `mdCore`
plus exactly one newline, and (unless the normalized body is empty) its
`splitlines` decomposition is `normLines`, whose first and last lines are
non-blank. -/
theorem ocrNormalize_normalized (raw : Str) :
    endsWithOneNewline (ocrNormalize raw) = true ∧
    noTwoAdjBlank (pySplitlines (ocrNormalize raw)) = true ∧
    (mdCore raw = [] ∨
      (pySplitlines (ocrNormalize raw) = normLines raw ∧
       (∃ a, (normLines raw).head? = some a ∧ isBlank a = false) ∧
       (∃ z, (normLines raw).getLast? = some z ∧ isBlank z = false))) := by
  cases hN : normLines raw with
  | nil =>
    have hcore : mdCore raw = [] := by rw [mdCore_eq_joinNL, hN]; rfl
    have hocr : ocrNormalize raw = ['\n'] := by
      unfold ocrNormalize
      rw [hcore]
      rfl
    refine ⟨?_, ?_, Or.inl hcore⟩
    · rw [hocr]; decide
    · rw [hocr]; decide
  | cons a t =>
    rcases normLines_shape raw with ⟨hblc, hno, hdisj⟩
    have hbf := normLines_breakFree raw
    have hNne : normLines raw ≠ [] := by rw [hN]; simp
    rcases hdisj with h0 | ⟨⟨a2, ha2, ha2b⟩, ⟨z, hz, hzb⟩⟩
    · exact absurd h0 hNne
    · have he : a = a2 := by
        rw [hN] at ha2
        simp only [List.head?_cons] at ha2
        injection ha2
      have hsplitEq : pySplitlines (ocrNormalize raw) = normLines raw := by
        show pySplitlines (mdCore raw ++ ['\n']) = _
        rw [mdCore_eq_joinNL]
        exact pySplitlines_joinNL (normLines raw) hNne hbf
      have hcne : mdCore raw ≠ [] := by
        rw [mdCore_eq_joinNL, hN]
        refine joinNL_cons_ne_nil (not_blank_ne_nil ?_)
        rw [he]
        exact ha2b
      rw [← hN]
      refine ⟨?_, ?_, Or.inr ⟨hsplitEq, ⟨a2, ha2, ha2b⟩, ⟨z, hz, hzb⟩⟩⟩
      · show endsWithOneNewline (mdCore raw ++ ['\n']) = true
        refine endsWithOneNewline_of_core _ ?_
        intro heq
        rcases pyStrip_getLast_not_ws (joinNL (collapsedLines raw)) hcne with ⟨c, hc, hw⟩
        have hc2 : (mdCore raw).getLast? = some c := hc
        rw [heq] at hc2
        injection hc2 with h3
        rw [← h3] at hw
        exact absurd hw (by decide)
      · rw [hsplitEq]
        exact hno

theorem endsWithOneNewline_strip_append (s : Str) :
    endsWithOneNewline (pyStrip s ++ ['\n']) = true := by
  refine endsWithOneNewline_of_core _ ?_
  intro h
  by_cases h0 : pyStrip s = []
  · rw [h0] at h
    cases h
  · rcases pyStrip_getLast_not_ws s h0 with ⟨c, hc, hw⟩
    rw [hc] at h
    injection h with h2
    rw [h2] at hw
    exact absurd hw (by decide)

theorem ocr_to_markdown_text_normalized (env : Env) (lang : Str) (out : ExtractOut)
    (h : ocr_to_markdown env lang = .ok out) :
    ∃ raw, out.text = ocrNormalize raw ∧ out.usedMethod = UsedMethod.ocr := by
  unfold ocr_to_markdown at h
  by_cases hd : env.decodeOk = false
  · rw [if_pos hd] at h
    cases h
  · rw [if_neg hd] at h
    cases ht : env.tesseract (langOrEng lang) with
    | text raw =>
      rw [ht] at h
      injection h with h2
      subst h2
      exact ⟨raw, rfl, rfl⟩
    | err msg =>
      rw [ht] at h
      dsimp only [] at h
      by_cases hf : strContains ("Failed loading language".toList) msg = true
      · rw [if_pos hf] at h
        cases ht2 : env.tesseract ("eng".toList) with
        | text raw2 =>
          rw [ht2] at h
          injection h with h2
          subst h2
          exact ⟨raw2, rfl, rfl⟩
        | err m2 =>
          rw [ht2] at h
          cases h
      · rw [if_neg hf] at h
        cases h

theorem llm_to_markdown_text_normalized (env : Env) (lang : Str) (out : ExtractOut)
    (h : llm_to_markdown env lang = .ok out) :
    (∃ s, out = ⟨pyStrip s ++ ['\n'], UsedMethod.llm, lang⟩) ∨
    (∃ raw, out.text = ocrNormalize raw ∧ out.usedMethod = UsedMethod.ocr) := by
  unfold llm_to_markdown at h
  split at h
  · exact Or.inr (ocr_to_markdown_text_normalized _ _ _ h)
  · split at h
    · rename_i s _
      injection h with h2
      subst h2
      exact Or.inl ⟨s, rfl⟩
    · exact Or.inr (ocr_to_markdown_text_normalized _ _ _ h)
    · exact Or.inr (ocr_to_markdown_text_normalized _ _ _ h)
    · exact Or.inr (ocr_to_markdown_text_normalized _ _ _ h)

/-- C5: For every input string, the Markdown Normalizer strips trailing
whitespace from each line, collapses every run of two or more consecutive
blank lines down to exactly one, strips leading/trailing whitespace from
the joined text and appends exactly one trailing newline; hence its output
ends with exactly one newline, contains no two adjacent blank lines, and —
unless the normalized body is empty — has a non-blank first and last
line. -/
theorem C5_normalizer_correct (s : Str) :
    ocrNormalize s =
      pyStrip (joinNL (collapseBlanks ((pySplitlines s).map pyRstrip) 0)) ++ ['\n'] ∧
    endsWithOneNewline (ocrNormalize s) = true ∧
    noTwoAdjBlank (pySplitlines (ocrNormalize s)) = true ∧
    (mdCore s = [] ∨
      ((pySplitlines (ocrNormalize s)).head?.elim False (fun a => isBlank a = false) ∧
       (pySplitlines (ocrNormalize s)).getLast?.elim False (fun z => isBlank z = false))) := by
  rcases ocrNormalize_normalized s with ⟨h1, h2, h3⟩
  refine ⟨rfl, h1, h2, ?_⟩
  rcases h3 with h0 | ⟨hsp, ⟨a, ha, hab⟩, ⟨z, hz, hzb⟩⟩
  · exact Or.inl h0
  · refine Or.inr ⟨?_, ?_⟩
    · rw [hsp, ha]
      exact hab
    · rw [hsp, hz]
      exact hzb

/-- C2 (amended): every extraction result of either path ends with exactly
one trailing newline; a result actually produced by the local OCR engine
(the local path, or the remote path after any of its fallbacks)
additionally contains no run of more than one consecutive blank line. A
remote success returns the model's text as-is and is not so constrained. -/
theorem C2_result_whitespace_invariant (env : Env) (lang : Str)
    (out : ExtractOut)
    (h : llm_to_markdown env lang = .ok out ∨ ocr_to_markdown env lang = .ok out) :
    endsWithOneNewline out.text = true ∧
    (out.usedMethod = UsedMethod.ocr →
      noTwoAdjBlank (pySplitlines out.text) = true) := by
  have hocr : (∃ raw, out.text = ocrNormalize raw ∧ out.usedMethod = UsedMethod.ocr) →
      endsWithOneNewline out.text = true ∧
      (out.usedMethod = UsedMethod.ocr →
        noTwoAdjBlank (pySplitlines out.text) = true) := by
    rintro ⟨raw, hraw, hm⟩
    rcases ocrNormalize_normalized raw with ⟨h1, h2, _⟩
    rw [hraw]
    exact ⟨h1, fun _ => h2⟩
  rcases h with h | h
  · rcases llm_to_markdown_text_normalized env lang out h with ⟨s, rfl⟩ | hool
    · refine ⟨endsWithOneNewline_strip_append s, ?_⟩
      intro hm
      cases hm
    · exact hocr hool
  · exact hocr (ocr_to_markdown_text_normalized env lang out h)

/-- C2 (counterexample): on the remote success path the Markdown
Normalizer is not applied, so a model response containing a run of two
blank lines is returned verbatim (plus the trailing newline): the returned
text violates the claimed no-more-than-one-consecutive-blank-line
invariant. -/
theorem C2_counterexample :
    llm_to_markdown envC2 ("eng".toList) =
      .ok ⟨("a\n\n\nb\n".toList), UsedMethod.llm, ("eng".toList)⟩ ∧
    noTwoAdjBlank (pySplitlines ("a\n\n\nb\n".toList)) = false := by
  constructor
  · rfl
  · rfl

/-- Witness for the amended C2 at a concrete remote-success instance. -/
theorem C2_witness :
    endsWithOneNewline ("a\n\n\nb\n".toList) = true ∧
    ((⟨("a\n\n\nb\n".toList), UsedMethod.llm, ("eng".toList)⟩ : ExtractOut).usedMethod =
        UsedMethod.ocr →
      noTwoAdjBlank (pySplitlines ("a\n\n\nb\n".toList)) = true) :=
  C2_result_whitespace_invariant envC2 ("eng".toList)
    ⟨("a\n\n\nb\n".toList), UsedMethod.llm, ("eng".toList)⟩ (Or.inl rfl)

/-- C3: when a valid credential is resolved (the network call is reached)
and the call does not produce a well-formed response — timeout, transport
error, malformed or empty response, or any other exception — the remote
extractor raises nothing of its own and returns exactly the result of the
Local Text Extractor on the same image and language. -/
theorem C3_remote_failure_degrades_to_local (env : Env) (lang k : Str)
    (hkey : resolveApiKey env.envFileLines env.envVarKey = some k)
    (hfail : ∀ s, env.net ≠ NetOutcome.content s) :
    llm_to_markdown env lang = ocr_to_markdown env lang := by
  unfold llm_to_markdown
  rw [hkey]
  cases hn : env.net with
  | content s => exact absurd hn (hfail s)
  | timeout => rfl
  | requestError m => rfl
  | badResponse m => rfl

/-- Witness for C3: concrete credential and timeout. -/
theorem C3_witness :
    resolveApiKey envC3.envFileLines envC3.envVarKey = some ("sk-or-v1-abc".toList) ∧
    llm_to_markdown envC3 ("eng".toList) = ocr_to_markdown envC3 ("eng".toList) :=
  ⟨rfl, C3_remote_failure_degrades_to_local envC3 ("eng".toList) ("sk-or-v1-abc".toList)
    rfl (fun s h => nomatch h)⟩

/-- C4: when no valid API credential is found — the secrets file has no
entry or only placeholder values, and the environment variable is unset or
a placeholder — the remote extractor's output is identical to calling the
Local Text Extractor directly on the same image and language. -/
theorem C4_no_credential_equals_local (env : Env) (lang : Str)
    (hkey : resolveApiKey env.envFileLines env.envVarKey = none) :
    llm_to_markdown env lang = ocr_to_markdown env lang := by
  unfold llm_to_markdown
  rw [hkey]

/-- Witness for C4: concrete placeholder-only configuration. -/
theorem C4_witness :
    resolveApiKey envC4.envFileLines envC4.envVarKey = none ∧
    llm_to_markdown envC4 ("hrv".toList) = ocr_to_markdown envC4 ("hrv".toList) :=
  ⟨rfl, C4_no_credential_equals_local envC4 ("hrv".toList) rfl⟩

/-- C7: if the OCR engine fails on the requested language with a message
reporting missing language data, the Local Text Extractor retries exactly
once with `"eng"` (returning the retry's normalized text with `"eng"` as
the applied language, or propagating the retry's engine error as an
`ExtractionError`); an engine error without that message propagates
directly as an `ExtractionError` and is never swallowed. -/
theorem C7_language_pack_retry (env : Env) (lang msg : Str)
    (hdec : env.decodeOk = true)
    (herr : env.tesseract (langOrEng lang) = TessOutcome.err msg) :
    (strContains ("Failed loading language".toList) msg = true →
      ocr_to_markdown env lang =
        (match env.tesseract ("eng".toList) with
         | TessOutcome.text raw =>
             Except.ok ⟨ocrNormalize raw, UsedMethod.ocr, ("eng".toList)⟩
         | TessOutcome.err msg2 =>
             Except.error (ExtErr.extractionError msg2))) ∧
    (strContains ("Failed loading language".toList) msg = false →
      ocr_to_markdown env lang = Except.error (ExtErr.extractionError msg)) := by
  constructor
  · intro hf
    unfold ocr_to_markdown
    rw [if_neg (by rw [hdec]; simp), herr]
    dsimp only []
    rw [if_pos hf]
  · intro hf
    unfold ocr_to_markdown
    rw [if_neg (by rw [hdec]; simp), herr]
    dsimp only []
    rw [if_neg (by rw [hf]; simp)]

/-- Witness for C7: the missing-language retry and the propagating error at
concrete inputs. -/
theorem C7_witness :
    ocr_to_markdown envC7 ("hrv".toList) =
      Except.ok ⟨("hi\n".toList), UsedMethod.ocr, ("eng".toList)⟩ ∧
    ocr_to_markdown envC7b ("eng".toList) =
      Except.error (ExtErr.extractionError ("engine crashed".toList)) := by
  constructor
  · exact (C7_language_pack_retry envC7 ("hrv".toList)
      ("Failed loading language: hrv".toList) rfl rfl).1 (by decide)
  · exact (C7_language_pack_retry envC7b ("eng".toList)
      ("engine crashed".toList) rfl rfl).2 (by decide)

/-- C9: the prompt-language mapping of the remote extractor is a whitelist
of exactly six language codes; every code outside the whitelist — including
`"eng+hrv"`, which the languages endpoint advertises — maps to English. -/
theorem C9_language_whitelist :
    langContextKeys.length = 6 ∧
    langContext ("hrv".toList) = ("Croatian".toList) ∧
    langContext ("eng".toList) = ("English".toList) ∧
    langContext ("fra".toList) = ("French".toList) ∧
    langContext ("deu".toList) = ("German".toList) ∧
    langContext ("spa".toList) = ("Spanish".toList) ∧
    langContext ("ita".toList) = ("Italian".toList) ∧
    (∀ lang, lang ∉ langContextKeys → langContext lang = ("English".toList)) ∧
    (("eng+hrv".toList), ("English + Croatian".toList)) ∈ get_available_languages ∧
    langContext ("eng+hrv".toList) = ("English".toList) := by
  refine ⟨rfl, rfl, rfl, rfl, rfl, rfl, rfl, ?_, by decide, rfl⟩
  intro lang h
  unfold langContext
  split_ifs with h1 h2 h3 h4 h5 h6
  · exact absurd (h1.symm ▸ (show ("hrv".toList) ∈ langContextKeys by decide)) h
  · exact absurd (h2.symm ▸ (show ("eng".toList) ∈ langContextKeys by decide)) h
  · exact absurd (h3.symm ▸ (show ("fra".toList) ∈ langContextKeys by decide)) h
  · exact absurd (h4.symm ▸ (show ("deu".toList) ∈ langContextKeys by decide)) h
  · exact absurd (h5.symm ▸ (show ("spa".toList) ∈ langContextKeys by decide)) h
  · exact absurd (h6.symm ▸ (show ("ita".toList) ∈ langContextKeys by decide)) h
  · rfl

/-- Witness for C9: concrete codes outside the whitelist map to English. -/
theorem C9_witness :
    langContext ("xyz".toList) = ("English".toList) ∧
    langContext ("eng+hrv".toList) = ("English".toList) :=
  ⟨C9_language_whitelist.2.2.2.2.2.2.2.1 ("xyz".toList) (by decide),
   C9_language_whitelist.2.2.2.2.2.2.2.1 ("eng+hrv".toList) (by decide)⟩

theorem dispatchExtract_deleteOk (env : Env) (m l : Str) :
    dispatchExtract { env with deleteOk := false } m l = dispatchExtract env m l := by
  cases env
  rfl

theorem process_ocr_resolved (env : Env) (st : Store) (b : ProcBody)
    (hne : (pyGetD b.file_id []).isEmpty = false)
    (hin : st (pyGetD b.file_id []) = true) :
    process_ocr env st (some b) =
      ((match dispatchExtract env (pyGetD b.method ("ocr".toList))
          (pyGetD b.language ("eng".toList)) with
        | .ok out => ProcResp.success ⟨out.text, extractLines out.text,
            pyGetD b.method ("ocr".toList), pyGetD b.language ("eng".toList),
            pyGetD b.file_id []⟩
        | .error _ => ProcResp.error500),
       cleanup_file env st (pyGetD b.file_id [])) := by
  unfold process_ocr
  dsimp only []
  rw [if_neg (by rw [hne]; simp), if_neg (by rw [hin]; simp)]
  cases dispatchExtract env (pyGetD b.method ("ocr".toList))
    (pyGetD b.language ("eng".toList)) with
  | ok out => rfl
  | error e => rfl

theorem process_ocr_success_inv (env : Env) (st : Store) (b : ProcBody)
    (data : ExtractedData)
    (h : (process_ocr env st (some b)).1 = ProcResp.success data) :
    ∃ out, dispatchExtract env (pyGetD b.method ("ocr".toList))
        (pyGetD b.language ("eng".toList)) = .ok out ∧
      data = ⟨out.text, extractLines out.text,
        pyGetD b.method ("ocr".toList), pyGetD b.language ("eng".toList),
        pyGetD b.file_id []⟩ := by
  unfold process_ocr at h
  dsimp only [] at h
  by_cases h1 : (pyGetD b.file_id []).isEmpty = true
  · rw [if_pos h1] at h
    simp at h
  · rw [if_neg h1] at h
    by_cases h2 : st (pyGetD b.file_id []) = false
    · rw [if_pos h2] at h
      simp at h
    · rw [if_neg h2] at h
      cases hout : dispatchExtract env (pyGetD b.method ("ocr".toList))
          (pyGetD b.language ("eng".toList)) with
      | ok out =>
        rw [hout] at h
        dsimp only [] at h
        injection h with h3
        exact ⟨out, rfl, h3.symm⟩
      | error e =>
        rw [hout] at h
        simp at h

theorem filter_map_strip (L : List Str) :
    (L.filter (fun ln => !(pyStrip ln).isEmpty)).map pyStrip =
    (L.map pyStrip).filter (fun l => !l.isEmpty) := by
  induction L with
  | nil => rfl
  | cons a t ih =>
    by_cases ha : (pyStrip a).isEmpty = true
    · simp [List.filter_cons, List.map_cons, ha, ih]
    · simp [List.filter_cons, List.map_cons, ha, ih]

theorem nil_not_mem_extractLines (md : Str) : ([] : Str) ∉ extractLines md := by
  intro h
  unfold extractLines at h
  rcases List.mem_map.mp h with ⟨ln, hln, he⟩
  have hp := List.of_mem_filter hln
  rw [he] at hp
  simp at hp

/-- C10: for every successful process call, the `lines` field equals the
list of lines of `raw_text` with surrounding whitespace stripped and all
blank lines removed; in particular it never contains an empty string. -/
theorem C10_lines_field (env : Env) (st : Store) (b : ProcBody)
    (data : ExtractedData)
    (h : (process_ocr env st (some b)).1 = ProcResp.success data) :
    data.lines = ((pySplitCh '\n' data.raw_text).map pyStrip).filter
      (fun l => !l.isEmpty) ∧
    ([] : Str) ∉ data.lines := by
  rcases process_ocr_success_inv env st b data h with ⟨out, _, rfl⟩
  exact ⟨filter_map_strip _, nil_not_mem_extractLines _⟩

/-- Witness for C10: a concrete successful process call. -/
theorem C10_witness :
    (⟨("hello\n".toList), [("hello".toList)], ("ocr".toList), ("eng".toList),
        ("f1".toList)⟩ : ExtractedData).lines =
      ((pySplitCh '\n' ("hello\n".toList)).map pyStrip).filter (fun l => !l.isEmpty) ∧
    ([] : Str) ∉ [("hello".toList)] :=
  C10_lines_field baseEnv st1 bodyOcr
    ⟨("hello\n".toList), [("hello".toList)], ("ocr".toList), ("eng".toList),
      ("f1".toList)⟩ rfl

/-- C1 (counterexample): the response's `method_used` and `language` fields
echo the request even when a fallback changed what actually ran. With no
credential configured, a `method = "llm"` request is served by the local
extractor, yet the response still reports `method_used = "llm"`; with the
`hrv` language pack missing, the extractor applies `"eng"`, yet the
response still reports `language = "hrv"`. -/
theorem C1_counterexample :
    ((process_ocr baseEnv st1 (some bodyLlm)).1 =
      ProcResp.success ⟨("hello\n".toList), [("hello".toList)], ("llm".toList),
        ("eng".toList), ("f1".toList)⟩) ∧
    dispatchExtract baseEnv ("llm".toList) ("eng".toList) =
      .ok ⟨("hello\n".toList), UsedMethod.ocr, ("eng".toList)⟩ ∧
    ((process_ocr envC1b st1 (some bodyHrv)).1 =
      ProcResp.success ⟨("hello\n".toList), [("hello".toList)], ("ocr".toList),
        ("hrv".toList), ("f1".toList)⟩) ∧
    dispatchExtract envC1b ("ocr".toList) ("hrv".toList) =
      .ok ⟨("hello\n".toList), UsedMethod.ocr, ("eng".toList)⟩ :=
  ⟨rfl, rfl, rfl, rfl⟩

/-- C1 (amended): the Extraction Result reports the requested method and
the requested language verbatim (after defaulting absent fields to `"ocr"`
and `"eng"`); these may differ from the method actually used and the
language actually applied when a fallback occurred. -/
theorem C1_reported_method_language (env : Env) (st : Store) (b : ProcBody)
    (data : ExtractedData)
    (h : (process_ocr env st (some b)).1 = ProcResp.success data) :
    data.method_used = pyGetD b.method ("ocr".toList) ∧
    data.language = pyGetD b.language ("eng".toList) := by
  rcases process_ocr_success_inv env st b data h with ⟨out, _, rfl⟩
  exact ⟨rfl, rfl⟩

/-- Witness for the amended C1 at a concrete fallback instance. -/
theorem C1_witness :
    (⟨("hello\n".toList), [("hello".toList)], ("llm".toList), ("eng".toList),
        ("f1".toList)⟩ : ExtractedData).method_used = pyGetD bodyLlm.method ("ocr".toList) ∧
    (⟨("hello\n".toList), [("hello".toList)], ("llm".toList), ("eng".toList),
        ("f1".toList)⟩ : ExtractedData).language = pyGetD bodyLlm.language ("eng".toList) :=
  C1_reported_method_language baseEnv st1 bodyLlm
    ⟨("hello\n".toList), [("hello".toList)], ("llm".toList), ("eng".toList),
      ("f1".toList)⟩ rfl

/-- C6: when a process call resolves its token to a stored file, the
`finally` block removes the stored file on every exit path (successful
extraction and extraction failure alike) whenever the filesystem delete
succeeds; a deletion failure affects only the store and never the response;
and a second process call with the same token against the resulting store
fails with 404. -/
theorem C6_cleanup_every_path (env : Env) (st : Store) (b : ProcBody) (fid : Str)
    (hfid : pyGetD b.file_id [] = fid) (hne : fid.isEmpty = false)
    (hin : st fid = true) (hdel : env.deleteOk = true) :
    ((process_ocr env st (some b)).2 fid = false) ∧
    ((process_ocr env st (some b)).1 =
      (process_ocr { env with deleteOk := false } st (some b)).1) ∧
    ((process_ocr env ((process_ocr env st (some b)).2) (some b)).1 =
      ProcResp.error404) := by
  subst hfid
  have hclean : cleanup_file env st (pyGetD b.file_id []) (pyGetD b.file_id []) = false := by
    unfold cleanup_file
    rw [if_pos hdel]
    simp
  refine ⟨?_, ?_, ?_⟩
  · rw [process_ocr_resolved env st b hne hin]
    exact hclean
  · rw [process_ocr_resolved env st b hne hin,
        process_ocr_resolved { env with deleteOk := false } st b hne hin]
    dsimp only []
    rw [dispatchExtract_deleteOk]
  · rw [process_ocr_resolved env st b hne hin]
    unfold process_ocr
    dsimp only []
    rw [if_neg (by rw [hne]; simp), if_pos hclean]

/-- Witness for C6 at a concrete request. -/
theorem C6_witness :
    ((process_ocr baseEnv st1 (some bodyOcr)).2 ("f1".toList) = false) ∧
    ((process_ocr baseEnv st1 (some bodyOcr)).1 =
      (process_ocr { baseEnv with deleteOk := false } st1 (some bodyOcr)).1) ∧
    ((process_ocr baseEnv ((process_ocr baseEnv st1 (some bodyOcr)).2) (some bodyOcr)).1 =
      ProcResp.error404) :=
  C6_cleanup_every_path baseEnv st1 bodyOcr ("f1".toList) rfl rfl rfl rfl

/-- C8 (counterexample): a zero-byte file with an allowed filename passes
every upload check: the request succeeds with status `uploaded` and the
empty file is persisted, so `upload` does not reject empty files. -/
theorem C8_counterexample :
    (upload_file baseEnv (fun _ => false) (some ⟨("a.png".toList), 0⟩)).1 =
      UploadResp.uploaded ("u1_a.png".toList) ("a.png".toList) 0 ∧
    (upload_file baseEnv (fun _ => false) (some ⟨("a.png".toList), 0⟩)).2
      ("u1_a.png".toList) = true :=
  ⟨rfl, rfl⟩

/-- C8 (amended): `upload` rejects a request with no file part, an empty
filename, or a filename whose extension is outside the allow-list with an
HTTP 400 error and persists nothing; in particular a file named `x.exe` of
any size is rejected with an error message. A file with empty content but
an allowed filename is accepted. -/
theorem C8_upload_validation (env : Env) (st : Store) (reqFile : Option ReqFile)
    (n : Nat)
    (h : reqFile = none ∨ ∃ f, reqFile = some f ∧
      (f.filename.isEmpty = true ∨ allowed_file f.filename = false)) :
    (∃ msg, (upload_file env st reqFile).1 = UploadResp.error400 msg) ∧
    (upload_file env st reqFile).2 = st ∧
    ((upload_file env st (some ⟨("x.exe".toList), n⟩)).1 =
      UploadResp.error400 ("File type not supported".toList)) := by
  have key : (∃ msg, (upload_file env st reqFile).1 = UploadResp.error400 msg) ∧
      (upload_file env st reqFile).2 = st := by
    rcases h with rfl | ⟨f, rfl, hf⟩
    · exact ⟨⟨_, rfl⟩, rfl⟩
    · unfold upload_file
      dsimp only []
      by_cases hemp : f.filename.isEmpty = true
      · rw [if_pos hemp]
        exact ⟨⟨_, rfl⟩, rfl⟩
      · rw [if_neg hemp]
        have hext : allowed_file f.filename = false := by
          rcases hf with h1 | h1
          · exact absurd h1 hemp
          · exact h1
        rw [if_pos hext]
        exact ⟨⟨_, rfl⟩, rfl⟩
  exact ⟨key.1, key.2, rfl⟩

/-- Witness for the amended C8: the `x.exe` upload is rejected with 400 and
nothing is persisted. -/
theorem C8_witness :
    (∃ msg, (upload_file baseEnv (fun _ => false) (some ⟨("x.exe".toList), 5⟩)).1 =
      UploadResp.error400 msg) ∧
    (upload_file baseEnv (fun _ => false) (some ⟨("x.exe".toList), 5⟩)).2 =
      (fun _ => false) ∧
    ((upload_file baseEnv (fun _ => false) (some ⟨("x.exe".toList), 5⟩)).1 =
      UploadResp.error400 ("File type not supported".toList)) :=
  C8_upload_validation baseEnv (fun _ => false) (some ⟨("x.exe".toList), 5⟩) 5
    (Or.inr ⟨⟨("x.exe".toList), 5⟩, rfl, Or.inr (by decide)⟩)
